import Mathlib

/-!
Verification development for the Foucault-pendulum arcade game
(single Go source file, package main).

Modelling conventions:
* Go float64 arithmetic is modelled by exact rational arithmetic (ℚ).
* All angles are stored in units of π radians: the Go code only ever adds
  the literal increment math.Pi/800 and compares against / subtracts
  math.Pi*2, so a rotation value ρ (in radians) is represented by
  u = ρ/π : ℚ.  The increment becomes 1/800 and the wrap bound becomes 2.
* The transcendental library functions math.Cos, math.Sin, math.Sqrt and
  math.Atan2 are not rational-valued, so they are abstracted into a
  bundle of function parameters (Trig); cospi u models cos(π·u), sinpi u
  models sin(π·u), and atan2pi y x models atan2(y,x)/π.  Every theorem
  below that quantifies over this bundle holds in particular for the
  real functions.  (Claim C8, about the screen/polar round trip, is
  settled separately over ℝ with the genuine Real.cos / Real.sin /
  Real.sqrt / Complex.arg.)
* The pseudo-random source rand.New(rand.NewSource(seed)) is modelled as
  an abstract deterministic stream of draws indexed by the seed and a
  position counter (RandModel / Rng); rand.Int() yields a non-negative
  machine integer, modelled as ℕ, and rand.Float64() is modelled as a ℚ
  draw.  The starfield generation in Game.initialize consumes a
  seed-dependent number of draws, modelled by the skyCost field.
* uint64 / uint tick counters never come close to 2^64 along the runs the
  claims are about, and within Playing mode lastPendulumTicks is only
  ever assigned a current (hence smaller-or-equal) tick value, so the
  uint64 subtraction ticksFromModeStart - lastPendulumTicks is modelled
  by truncated ℕ subtraction.
* Audio playback, logging/telemetry, the touch-log call, the asynchronous
  ranking submission and all drawing are I/O with no effect on game
  state; they are omitted.
-/

namespace Foucault

/-- Screen width constant (Go: screenWidth = 640). -/
def screenWidth : ℚ := 640

/-- Screen height constant (Go: screenHeight = 480). -/
def screenHeight : ℚ := 480

/-- Field centre x (Go: circleX = screenWidth / 2). -/
def circleX : ℚ := screenWidth / 2

/-- Field centre y (Go: circleY = screenHeight / 2). -/
def circleY : ℚ := screenHeight / 2

/-- Vertical squash factor used when rendering the polar plane
(Go: circleVerticalScale = 0.7). -/
def circleVerticalScale : ℚ := 0.7

/-- Pendulum length constant (Go: pendulumLength = 955). -/
def pendulumLength : ℚ := 955

/-- Pendulum amplitude constant (Go: pendulumAmplitude = 220). -/
def pendulumAmplitude : ℚ := 220

/-- Pendulum bob radius (Go: pendulumR = 10.0). -/
def pendulumR : ℚ := 10

/-- Per-tick gravity constant (Go: gravity = 9.8 / 60). -/
def gravity : ℚ := 9.8 / 60

/-- Abstract model of the transcendental library functions.  cospi u is
cos(π·u), sinpi u is sin(π·u), sqrtq models math.Sqrt, and atan2pi y x
models atan2(y, x)/π (angles are stored in units of π throughout). -/
structure Trig where
  cospi : ℚ → ℚ
  sinpi : ℚ → ℚ
  sqrtq : ℚ → ℚ
  atan2pi : ℚ → ℚ → ℚ

/-- Go type PolarCoordinates { r, theta float64 }; theta in units of π. -/
structure PolarCoordinates where
  r : ℚ
  theta : ℚ
  deriving DecidableEq

/-- Go method PolarCoordinates.toScreen:
x, y := p.r*cos(p.theta), p.r*sin(p.theta);
return x + circleX, y*circleVerticalScale + circleY. -/
def toScreen (T : Trig) (p : PolarCoordinates) : ℚ × ℚ :=
  (p.r * T.cospi p.theta + circleX,
   p.r * T.sinpi p.theta * circleVerticalScale + circleY)

/-- Go method PolarCoordinates.fromScreen:
x -= circleX; y -= circleY; y /= circleVerticalScale;
p.r = sqrt(x*x + y*y); p.theta = atan2(y, x). -/
def fromScreen (T : Trig) (x y : ℚ) : PolarCoordinates :=
  let x1 := x - circleX
  let y1 := (y - circleY) / circleVerticalScale
  { r := T.sqrtq (x1 * x1 + y1 * y1), theta := T.atan2pi y1 x1 }

/-- Go type Mover { delay int; delta float64 }. -/
structure Mover where
  delay : ℤ
  delta : ℚ
  deriving DecidableEq

/-- Go method Mover.move(ticks uint, pos *PolarCoordinates):
if int(ticks)-m.delay > 0 { x, y := pos.toScreen(); pos.fromScreen(x+m.delta, y) }. -/
def Mover.move (T : Trig) (m : Mover) (ticks : ℕ) (pos : PolarCoordinates) :
    PolarCoordinates :=
  if (ticks : ℤ) - m.delay > 0 then
    let s := toScreen T pos
    fromScreen T (s.1 + m.delta) s.2
  else pos

/-- Go type Coin { ticks uint; pos *PolarCoordinates; mover *Mover; r float64; hit bool }. -/
structure Coin where
  ticks : ℕ
  pos : PolarCoordinates
  mover : Mover
  r : ℚ
  hit : Bool
  deriving DecidableEq

/-- Go type CoinHitEffect { ticks uint; pos *PolarCoordinates; gain int }. -/
structure CoinHitEffect where
  ticks : ℕ
  pos : PolarCoordinates
  gain : ℤ
  deriving DecidableEq

/-- Go type Enemy { ticks uint; pos *PolarCoordinates; mover *Mover; r float64 }. -/
structure Enemy where
  ticks : ℕ
  pos : PolarCoordinates
  mover : Mover
  r : ℚ
  deriving DecidableEq

/-- Go type GameMode (GameModeTitle | GameModePlaying | GameModeGameOver). -/
inductive GameMode where
  | Title
  | Playing
  | GameOver
  deriving DecidableEq

/-- State of the owned pseudo-random stream: the seed it was created from
and how many draws have been consumed. -/
structure Rng where
  seed : ℤ
  pos : ℕ
  deriving DecidableEq

/-- Abstract deterministic model of rand.New(rand.NewSource(seed)):
ints seed i is the i-th rand.Int() draw (non-negative), floats seed i
the i-th rand.Float64() draw, and skyCost seed the number of draws the
starfield generation in Game.initialize consumes for that seed. -/
structure RandModel where
  ints : ℤ → ℕ → ℕ
  floats : ℤ → ℕ → ℚ
  skyCost : ℤ → ℕ

/-- One rand.Int() draw. -/
def randInt (R : RandModel) (r : Rng) : ℕ × Rng :=
  (R.ints r.seed r.pos, { r with pos := r.pos + 1 })

/-- One rand.Float64() draw. -/
def randFloat (R : RandModel) (r : Rng) : ℚ × Rng :=
  (R.floats r.seed r.pos, { r with pos := r.pos + 1 })

/-- Go type Game (gameplay-relevant fields; playerID/playID, the touch
context and the sky image are I/O-only and omitted; pendulumRotation is
stored in units of π). -/
structure Game where
  fixedRandomSeed : ℤ
  random : Rng
  mode : GameMode
  ticksFromModeStart : ℕ
  score : ℤ
  hold : Bool
  pendulumX : ℚ
  pendulumVx : ℚ
  pendulumRotation : ℚ
  coins : List Coin
  coinHitEffects : List CoinHitEffect
  enemies : List Enemy
  lastPendulumTicks : ℕ
  deriving DecidableEq

/-- Per-frame touch input edges (touchContext.IsJustTouched /
IsJustReleased). -/
structure Input where
  justTouched : Bool
  justReleased : Bool
  deriving DecidableEq

/-- Input handling at the top of the Playing case:
if IsJustTouched { hold = true }; if IsJustReleased { hold = false }. -/
def holdPhase (inp : Input) (g : Game) : Game :=
  let h1 := if inp.justTouched then true else g.hold
  let h2 := if inp.justReleased then false else h1
  { g with hold := h2 }

/-- One rotation increment, in units of π:
rotation += π/800; if rotation > π*2 { rotation -= π*2 }. -/
def rotStep (r : ℚ) : ℚ :=
  let r1 := r + 1 / 800
  if r1 > 2 then r1 - 2 else r1

/-- Rotation update: applied only while hold is active. -/
def rotationPhase (g : Game) : Game :=
  if g.hold then { g with pendulumRotation := rotStep g.pendulumRotation } else g

/-- Pendulum Euler integration step:
pendulumVx += -gravity/pendulumLength * pendulumX; pendulumX += pendulumVx. -/
def physicsPhase (g : Game) : Game :=
  let vx := g.pendulumVx + -gravity / pendulumLength * g.pendulumX
  { g with pendulumVx := vx, pendulumX := g.pendulumX + vx }

/-- Forced energy re-injection:
if (ticksFromModeStart-lastPendulumTicks)%480 == 0 { pendulumVx = 0;
pendulumX = pendulumAmplitude; lastPendulumTicks = ticksFromModeStart }. -/
def resetPhase (g : Game) : Game :=
  if (g.ticksFromModeStart - g.lastPendulumTicks) % 480 == 0 then
    { g with pendulumVx := 0, pendulumX := pendulumAmplitude,
             lastPendulumTicks := g.ticksFromModeStart }
  else g

/-- Spawn-rate table (lo.If chain on ticksFromModeStart). -/
def enemyAppearanceRate (t : ℕ) : ℕ :=
  if t < 1800 then 180
  else if t < 2400 then 120
  else if t < 3000 then 100
  else if t < 3600 then 60
  else 40

/-- Rejection sampling of the spawn y coordinate, with fuel bounding the
unbounded Go loop:
for { y = (screenHeight-150)*Float64() + 110; if |y-circleY| > 30 { break } }. -/
def pickY (R : RandModel) : ℕ → Rng → Option (ℚ × Rng)
  | 0, _ => none
  | fuel + 1, r =>
    let d := randFloat R r
    let y := (screenHeight - 150) * d.1 + 110
    if |y - circleY| > 30 then some (y, d.2) else pickY R fuel d.2

/-- The six coins emitted at a spawn point:
for i := 0..5 { append Coin{pos, Mover{delay: (i+1)*20, delta}, r: if i<3 then 10 else 7} }. -/
def spawnCoins (pos : PolarCoordinates) (delta : ℚ) : List Coin :=
  (List.range 6).map fun i =>
    { ticks := 0, pos := pos,
      mover := { delay := ((i : ℤ) + 1) * 20, delta := delta },
      r := if i < 3 then 10 else 7, hit := false }

/-- The single enemy emitted at a spawn point:
Enemy{pos, Mover{delay: 0, delta}, r: 10}. -/
def spawnEnemy (pos : PolarCoordinates) (delta : ℚ) : Enemy :=
  { ticks := 0, pos := pos, mover := { delay := 0, delta := delta }, r := 10 }

/-- Spawner block: one rand.Int() draw every tick; on trigger
(draw % rate == 0) a side draw, the y rejection loop, and the emission of
6 coins and 1 enemy sharing the spawn point and mover delta.  none models
fuel exhaustion of the rejection loop. -/
def spawnPhase (T : Trig) (R : RandModel) (fuel : ℕ) (g : Game) : Option Game :=
  let rate := enemyAppearanceRate g.ticksFromModeStart
  let d1 := randInt R g.random
  if d1.1 % rate == 0 then
    let d2 := randInt R d1.2
    let x : ℚ := if d2.1 % 2 == 0 then -50 else screenWidth + 50
    let moverDelta : ℚ := if x < 0 then 1 else -1
    match pickY R fuel d2.2 with
    | none => none
    | some yr =>
      let pos := fromScreen T x yr.1
      some { g with random := yr.2,
                    coins := g.coins ++ spawnCoins pos moverDelta,
                    enemies := g.enemies ++ [spawnEnemy pos moverDelta] }
  else some { g with random := d1.2 }

/-- The pendulum bob's absolute position in the unscaled polar plane:
(pendulumX·cos(rotation), pendulumX·sin(rotation)). -/
def bobOf (T : Trig) (g : Game) : ℚ × ℚ :=
  (g.pendulumX * T.cospi g.pendulumRotation,
   g.pendulumX * T.sinpi g.pendulumRotation)

/-- The collision test shared by coins and enemies:
(bobX - r·cosθ)^2 + (bobY - r·sinθ)^2 < (pendulumR + radius)^2
(the vertical squash factor is not applied). -/
def collideAt (T : Trig) (bob : ℚ × ℚ) (pos : PolarCoordinates) (radius : ℚ) :
    Bool :=
  decide ((bob.1 - pos.r * T.cospi pos.theta) ^ 2 +
          (bob.2 - pos.r * T.sinpi pos.theta) ^ 2 <
          (pendulumR + radius) ^ 2)

/-- Coin score-gain tiers: lo.If(r <= 5, 100).ElseIf(r <= 7, 300).Else(1000). -/
def coinGain (r : ℚ) : ℤ :=
  if r ≤ 5 then 100 else if r ≤ 7 then 300 else 1000

/-- Per-coin body of the coin loop: on collision set the hit flag; then
c.ticks++; then c.mover.move(c.ticks, c.pos) with the incremented ticks. -/
def coinUpd (T : Trig) (bob : ℚ × ℚ) (c : Coin) : Coin :=
  let c1 := if collideAt T bob c.pos c.r then { c with hit := true } else c
  let c2 := { c1 with ticks := c1.ticks + 1 }
  { c2 with pos := c2.mover.move T c2.ticks c2.pos }

/-- The CoinHitEffect appended when coin c is hit this tick (a copy of the
coin's polar position, carrying the gain), if it is hit. -/
def coinEffect (T : Trig) (bob : ℚ × ℚ) (c : Coin) : Option CoinHitEffect :=
  if collideAt T bob c.pos c.r then
    some { ticks := 0, pos := { r := c.pos.r, theta := c.pos.theta },
           gain := coinGain c.r }
  else none

/-- The score increment contributed by coin c this tick. -/
def coinScore (T : Trig) (bob : ℚ × ℚ) (c : Coin) : ℤ :=
  if collideAt T bob c.pos c.r then coinGain c.r else 0

/-- The coin loop: each iteration is independent (the bob is fixed and
each coin only mutates itself, appends its own effect and adds its own
gain), so the loop is the per-coin map / filterMap / sum below. -/
def coinPhase (T : Trig) (g : Game) : Game :=
  let bob := bobOf T g
  { g with coins := g.coins.map (coinUpd T bob),
           coinHitEffects := g.coinHitEffects ++ g.coins.filterMap (coinEffect T bob),
           score := g.score + (g.coins.map (coinScore T bob)).sum }

/-- The effect loop: for _, e := range coinHitEffects { e.ticks++ }
(it runs after the coin loop, so effects appended this tick age too). -/
def effectPhase (g : Game) : Game :=
  { g with coinHitEffects :=
      g.coinHitEffects.map fun e => { e with ticks := e.ticks + 1 } }

/-- Per-enemy stepping when no collision: e.ticks++; e.mover.move(e.ticks, e.pos). -/
def enemyUpd (T : Trig) (e : Enemy) : Enemy :=
  let e1 := { e with ticks := e.ticks + 1 }
  { e1 with pos := e1.mover.move T e1.ticks e1.pos }

/-- The enemy loop: scan in order; on the first collision break out
immediately (that enemy and all later ones are left untouched) and report
game over; otherwise step each enemy. -/
def enemyLoop (T : Trig) (bob : ℚ × ℚ) : List Enemy → List Enemy × Bool
  | [] => ([], false)
  | e :: rest =>
    if collideAt T bob e.pos e.r then (e :: rest, true)
    else
      let r1 := enemyLoop T bob rest
      (enemyUpd T e :: r1.1, r1.2)

/-- The enemy loop plus the game-over transition it can trigger
(setNextMode(GameModeGameOver) resets the per-mode tick counter). -/
def enemyPhase (T : Trig) (g : Game) : Game :=
  let r := enemyLoop T (bobOf T g) g.enemies
  if r.2 then
    { g with enemies := r.1, mode := GameMode.GameOver, ticksFromModeStart := 0 }
  else { g with enemies := r.1 }

/-- Coin retention predicate of the end-of-tick filter:
x > -100 && x < screenWidth+100 && y > -100 && y < screenHeight+100 && !c.hit. -/
def coinKeep (T : Trig) (c : Coin) : Bool :=
  let s := toScreen T c.pos
  decide (s.1 > -100) && decide (s.1 < screenWidth + 100) &&
  decide (s.2 > -100) && decide (s.2 < screenHeight + 100) && !c.hit

/-- Enemy retention predicate of the end-of-tick filter. -/
def enemyKeep (T : Trig) (e : Enemy) : Bool :=
  let s := toScreen T e.pos
  decide (s.1 > -100) && decide (s.1 < screenWidth + 100) &&
  decide (s.2 > -100) && decide (s.2 < screenHeight + 100)

/-- End-of-tick lo.Filter passes over coins, effects (ticks < 60) and
enemies. -/
def filterPhase (T : Trig) (g : Game) : Game :=
  { g with coins := g.coins.filter (coinKeep T),
           coinHitEffects := g.coinHitEffects.filter fun e => decide (e.ticks < 60),
           enemies := g.enemies.filter (enemyKeep T) }

/-- The whole GameModePlaying case of Game.Update (after the shared tick
increment), in source order: input/hold, rotation, physics, forced reset,
spawner, coin loop, effect loop, enemy loop, filters. -/
def playingBody (T : Trig) (R : RandModel) (fuel : ℕ) (inp : Input)
    (g : Game) : Option Game :=
  (spawnPhase T R fuel (resetPhase (physicsPhase (rotationPhase (holdPhase inp g))))).map
    fun g1 => filterPhase T (enemyPhase T (effectPhase (coinPhase T g1)))

/-- Go Game.initialize (named initGame here because of its tick-shared
reinitialisation role): resolve the seed (fixedRandomSeed when non-zero,
otherwise the wall clock, passed in as now), reset the random stream
(advanced past the starfield draws), zero the score and pendulum state,
clear all entity collections, and setNextMode(GameModeTitle). -/
def initGame (R : RandModel) (now : ℤ) (g : Game) : Game :=
  let seed := if g.fixedRandomSeed ≠ 0 then g.fixedRandomSeed else now
  { g with random := { seed := seed, pos := R.skyCost seed },
           score := 0, hold := false,
           pendulumX := 0, pendulumVx := 0, pendulumRotation := 0,
           coins := [], coinHitEffects := [], enemies := [],
           lastPendulumTicks := 0,
           mode := GameMode.Title, ticksFromModeStart := 0 }

/-- Go Game.Update: increment ticksFromModeStart, then dispatch on mode.
Title: a touch sets pendulumX to the amplitude and enters Playing.
Playing: playingBody.  GameOver: a touch after 60 ticks reinitialises. -/
def update (T : Trig) (R : RandModel) (fuel : ℕ) (now : ℤ) (inp : Input)
    (g : Game) : Option Game :=
  let g1 := { g with ticksFromModeStart := g.ticksFromModeStart + 1 }
  match g1.mode with
  | GameMode.Title =>
    some (if inp.justTouched then
            { g1 with pendulumX := pendulumAmplitude,
                      mode := GameMode.Playing, ticksFromModeStart := 0 }
          else g1)
  | GameMode.Playing => playingBody T R fuel inp g1
  | GameMode.GameOver =>
    some (if g1.ticksFromModeStart > 60 && inp.justTouched then
            initGame R now g1
          else g1)

/-- The fresh Game value constructed in main before game.initialize():
all fields zero except the configured fixed seed. -/
def mkGame (fixedSeed : ℤ) : Game :=
  { fixedRandomSeed := fixedSeed, random := { seed := 0, pos := 0 },
    mode := GameMode.Title, ticksFromModeStart := 0, score := 0,
    hold := false, pendulumX := 0, pendulumVx := 0, pendulumRotation := 0,
    coins := [], coinHitEffects := [], enemies := [], lastPendulumTicks := 0 }

/-- The sequence of states produced by running update over an input list
(stopping with none if a tick's spawn fuel runs out). -/
def trajectory (T : Trig) (R : RandModel) (fuel : ℕ) (now : ℤ) :
    List Input → Game → List (Option Game)
  | [], _ => []
  | i :: is, g =>
    match update T R fuel now i g with
    | none => [none]
    | some g2 => some g2 :: trajectory T R fuel now is g2

/-! Field-preservation lemmas for the individual phases. -/

@[simp] lemma holdPhase_pendulumX (inp : Input) (g : Game) :
    (holdPhase inp g).pendulumX = g.pendulumX := rfl

@[simp] lemma holdPhase_pendulumVx (inp : Input) (g : Game) :
    (holdPhase inp g).pendulumVx = g.pendulumVx := rfl

@[simp] lemma holdPhase_pendulumRotation (inp : Input) (g : Game) :
    (holdPhase inp g).pendulumRotation = g.pendulumRotation := rfl

@[simp] lemma holdPhase_ticksFromModeStart (inp : Input) (g : Game) :
    (holdPhase inp g).ticksFromModeStart = g.ticksFromModeStart := rfl

@[simp] lemma holdPhase_lastPendulumTicks (inp : Input) (g : Game) :
    (holdPhase inp g).lastPendulumTicks = g.lastPendulumTicks := rfl

@[simp] lemma holdPhase_score (inp : Input) (g : Game) :
    (holdPhase inp g).score = g.score := rfl

@[simp] lemma holdPhase_fixedRandomSeed (inp : Input) (g : Game) :
    (holdPhase inp g).fixedRandomSeed = g.fixedRandomSeed := rfl

@[simp] lemma rotationPhase_pendulumX (g : Game) :
    (rotationPhase g).pendulumX = g.pendulumX := by
  unfold rotationPhase; split <;> rfl

@[simp] lemma rotationPhase_pendulumVx (g : Game) :
    (rotationPhase g).pendulumVx = g.pendulumVx := by
  unfold rotationPhase; split <;> rfl

@[simp] lemma rotationPhase_ticksFromModeStart (g : Game) :
    (rotationPhase g).ticksFromModeStart = g.ticksFromModeStart := by
  unfold rotationPhase; split <;> rfl

@[simp] lemma rotationPhase_lastPendulumTicks (g : Game) :
    (rotationPhase g).lastPendulumTicks = g.lastPendulumTicks := by
  unfold rotationPhase; split <;> rfl

@[simp] lemma rotationPhase_score (g : Game) :
    (rotationPhase g).score = g.score := by
  unfold rotationPhase; split <;> rfl

@[simp] lemma rotationPhase_fixedRandomSeed (g : Game) :
    (rotationPhase g).fixedRandomSeed = g.fixedRandomSeed := by
  unfold rotationPhase; split <;> rfl

@[simp] lemma physicsPhase_ticksFromModeStart (g : Game) :
    (physicsPhase g).ticksFromModeStart = g.ticksFromModeStart := rfl

@[simp] lemma physicsPhase_lastPendulumTicks (g : Game) :
    (physicsPhase g).lastPendulumTicks = g.lastPendulumTicks := rfl

@[simp] lemma physicsPhase_score (g : Game) :
    (physicsPhase g).score = g.score := rfl

@[simp] lemma physicsPhase_fixedRandomSeed (g : Game) :
    (physicsPhase g).fixedRandomSeed = g.fixedRandomSeed := rfl

@[simp] lemma resetPhase_score (g : Game) :
    (resetPhase g).score = g.score := by
  unfold resetPhase; split <;> rfl

@[simp] lemma resetPhase_fixedRandomSeed (g : Game) :
    (resetPhase g).fixedRandomSeed = g.fixedRandomSeed := by
  unfold resetPhase; split <;> rfl

/-- Fields the spawner never touches. -/
lemma spawnPhase_same (T : Trig) (R : RandModel) (fuel : ℕ) (g g' : Game)
    (h : spawnPhase T R fuel g = some g') :
    g'.fixedRandomSeed = g.fixedRandomSeed ∧ g'.mode = g.mode ∧
    g'.ticksFromModeStart = g.ticksFromModeStart ∧ g'.score = g.score ∧
    g'.hold = g.hold ∧ g'.pendulumX = g.pendulumX ∧
    g'.pendulumVx = g.pendulumVx ∧
    g'.pendulumRotation = g.pendulumRotation ∧
    g'.lastPendulumTicks = g.lastPendulumTicks ∧
    g'.coinHitEffects = g.coinHitEffects := by
  simp only [spawnPhase] at h
  split at h
  · split at h
    · exact absurd h (by simp)
    · injection h with h
      subst h
      exact ⟨rfl, rfl, rfl, rfl, rfl, rfl, rfl, rfl, rfl, rfl⟩
  · injection h with h
    subst h
    exact ⟨rfl, rfl, rfl, rfl, rfl, rfl, rfl, rfl, rfl, rfl⟩

@[simp] lemma coinPhase_pendulumX (T : Trig) (g : Game) :
    (coinPhase T g).pendulumX = g.pendulumX := rfl

@[simp] lemma coinPhase_pendulumVx (T : Trig) (g : Game) :
    (coinPhase T g).pendulumVx = g.pendulumVx := rfl

@[simp] lemma coinPhase_lastPendulumTicks (T : Trig) (g : Game) :
    (coinPhase T g).lastPendulumTicks = g.lastPendulumTicks := rfl

@[simp] lemma coinPhase_fixedRandomSeed (T : Trig) (g : Game) :
    (coinPhase T g).fixedRandomSeed = g.fixedRandomSeed := rfl

@[simp] lemma effectPhase_pendulumX (g : Game) :
    (effectPhase g).pendulumX = g.pendulumX := rfl

@[simp] lemma effectPhase_pendulumVx (g : Game) :
    (effectPhase g).pendulumVx = g.pendulumVx := rfl

@[simp] lemma effectPhase_lastPendulumTicks (g : Game) :
    (effectPhase g).lastPendulumTicks = g.lastPendulumTicks := rfl

@[simp] lemma effectPhase_score (g : Game) :
    (effectPhase g).score = g.score := rfl

@[simp] lemma effectPhase_fixedRandomSeed (g : Game) :
    (effectPhase g).fixedRandomSeed = g.fixedRandomSeed := rfl

@[simp] lemma enemyPhase_pendulumX (T : Trig) (g : Game) :
    (enemyPhase T g).pendulumX = g.pendulumX := by
  simp only [enemyPhase]; split <;> rfl

@[simp] lemma enemyPhase_pendulumVx (T : Trig) (g : Game) :
    (enemyPhase T g).pendulumVx = g.pendulumVx := by
  simp only [enemyPhase]; split <;> rfl

@[simp] lemma enemyPhase_lastPendulumTicks (T : Trig) (g : Game) :
    (enemyPhase T g).lastPendulumTicks = g.lastPendulumTicks := by
  simp only [enemyPhase]; split <;> rfl

@[simp] lemma enemyPhase_score (T : Trig) (g : Game) :
    (enemyPhase T g).score = g.score := by
  simp only [enemyPhase]; split <;> rfl

@[simp] lemma enemyPhase_fixedRandomSeed (T : Trig) (g : Game) :
    (enemyPhase T g).fixedRandomSeed = g.fixedRandomSeed := by
  simp only [enemyPhase]; split <;> rfl

@[simp] lemma filterPhase_pendulumX (T : Trig) (g : Game) :
    (filterPhase T g).pendulumX = g.pendulumX := rfl

@[simp] lemma filterPhase_pendulumVx (T : Trig) (g : Game) :
    (filterPhase T g).pendulumVx = g.pendulumVx := rfl

@[simp] lemma filterPhase_lastPendulumTicks (T : Trig) (g : Game) :
    (filterPhase T g).lastPendulumTicks = g.lastPendulumTicks := rfl

@[simp] lemma filterPhase_score (T : Trig) (g : Game) :
    (filterPhase T g).score = g.score := rfl

@[simp] lemma filterPhase_fixedRandomSeed (T : Trig) (g : Game) :
    (filterPhase T g).fixedRandomSeed = g.fixedRandomSeed := rfl

/-- After the forced-reset branch fires, the pendulum state is the reset
state. -/
lemma resetPhase_fires (g : Game)
    (h : (g.ticksFromModeStart - g.lastPendulumTicks) % 480 = 0) :
    (resetPhase g).pendulumVx = 0 ∧
    (resetPhase g).pendulumX = pendulumAmplitude ∧
    (resetPhase g).lastPendulumTicks = g.ticksFromModeStart := by
  unfold resetPhase
  rw [if_pos (by simpa using h)]
  exact ⟨rfl, rfl, rfl⟩

/-- Claim C1: during Playing mode, whenever the incremented per-mode tick
counter t satisfies (t - lastPendulumTicks) % 480 = 0 for the current
update, the state immediately after that tick's update has pendulumVx = 0
and pendulumX = pendulumAmplitude (220), and lastPendulumTicks is set to
t; this holds for every hold/no-hold input and every state, hence for
every input sequence. -/
theorem claim1_pendulum_reset (T : Trig) (R : RandModel) (fuel : ℕ)
    (now : ℤ) (inp : Input) (g g' : Game)
    (hmode : g.mode = GameMode.Playing)
    (hcond : (g.ticksFromModeStart + 1 - g.lastPendulumTicks) % 480 = 0)
    (hupd : update T R fuel now inp g = some g') :
    g'.pendulumVx = 0 ∧ g'.pendulumX = pendulumAmplitude ∧
    g'.lastPendulumTicks = g.ticksFromModeStart + 1 := by
  simp only [update] at hupd
  split at hupd
  next heq =>
    have h1 : g.mode = GameMode.Title := heq
    rw [hmode] at h1
    exact absurd h1 (by simp)
  next heq =>
    rw [playingBody, Option.map_eq_some'] at hupd
    obtain ⟨ga, hsp, hf⟩ := hupd
    subst hf
    have hfields := resetPhase_fires
      (physicsPhase (rotationPhase (holdPhase inp
        { g with ticksFromModeStart := g.ticksFromModeStart + 1 })))
      (by simpa using hcond)
    simp only [physicsPhase_ticksFromModeStart, rotationPhase_ticksFromModeStart,
      holdPhase_ticksFromModeStart] at hfields
    have hsame := spawnPhase_same T R fuel _ ga hsp
    simp only [filterPhase_pendulumVx, enemyPhase_pendulumVx,
      effectPhase_pendulumVx, coinPhase_pendulumVx, filterPhase_pendulumX,
      enemyPhase_pendulumX, effectPhase_pendulumX, coinPhase_pendulumX,
      filterPhase_lastPendulumTicks, enemyPhase_lastPendulumTicks,
      effectPhase_lastPendulumTicks, coinPhase_lastPendulumTicks]
    exact ⟨hsame.2.2.2.2.2.2.1.trans hfields.1,
           hsame.2.2.2.2.2.1.trans hfields.2.1,
           hsame.2.2.2.2.2.2.2.2.1.trans hfields.2.2⟩
  next heq =>
    have h1 : g.mode = GameMode.GameOver := heq
    rw [hmode] at h1
    exact absurd h1 (by simp)

/-- Concrete instances used by witnesses and counterexamples.  T0 agrees
with the real trigonometric functions at angle 0 (cos 0 = 1, sin 0 = 0),
which is the only angle the concrete states below evaluate them at. -/
def T0 : Trig :=
  { cospi := fun _ => 1, sinpi := fun _ => 0,
    sqrtq := fun _ => 0, atan2pi := fun _ _ => 0 }

/-- A random model whose Int() draws are all 1, so the spawner never
triggers (1 % rate is never 0 for the rates 180/120/100/60/40). -/
def R0 : RandModel :=
  { ints := fun _ _ => 1, floats := fun _ _ => 0, skyCost := fun _ => 0 }

/-- A frame with no touch edges. -/
def inp0 : Input := { justTouched := false, justReleased := false }

/-- A Playing-mode state one tick before a forced pendulum reset. -/
def gW1 : Game :=
  { mkGame 1 with mode := GameMode.Playing, ticksFromModeStart := 479 }

theorem claim1_pendulum_reset_witness :
    ((update T0 R0 1 0 inp0 gW1).getD gW1).pendulumVx = 0 ∧
    ((update T0 R0 1 0 inp0 gW1).getD gW1).pendulumX = pendulumAmplitude ∧
    ((update T0 R0 1 0 inp0 gW1).getD gW1).lastPendulumTicks =
      gW1.ticksFromModeStart + 1 :=
  claim1_pendulum_reset T0 R0 1 0 inp0 gW1
    ((update T0 R0 1 0 inp0 gW1).getD gW1) rfl (by decide) (by decide)

/-! Claim C5: rotation evolution under hold input. -/

/-- The rotation value (in units of π) after a sequence of ticks starting
from pendulumRotation = 0, where each list entry says whether hold input
was active on that tick (rotationPhase applies rotStep exactly on hold
ticks). -/
def rotRun (bs : List Bool) : ℚ :=
  bs.foldl (fun r b => if b then rotStep r else r) 0

lemma rotRun_concat (bs : List Bool) (b : Bool) :
    rotRun (bs ++ [b]) = if b then rotStep (rotRun bs) else rotRun bs := by
  simp [rotRun, List.foldl_append]

/-- Holding for n ≤ 1600 consecutive ticks from rotation 0 gives exactly
n·(π/800): the wrap branch never fires because n/800 never exceeds 2. -/
lemma rotRun_replicate (n : ℕ) (h : n ≤ 1600) :
    rotRun (List.replicate n true) = (n : ℚ) / 800 := by
  induction n with
  | zero => simp [rotRun]
  | succ k ih =>
    have hk : (k : ℚ) + 1 ≤ 1600 := by exact_mod_cast h
    rw [List.replicate_succ', rotRun_concat, if_pos rfl,
        ih (Nat.le_of_succ_le h)]
    unfold rotStep
    rw [if_neg]
    · push_cast
      ring
    · have h2 : ((k : ℚ) + 1) / 800 ≤ 2 := by
        rw [div_le_iff₀ (by norm_num : (0 : ℚ) < 800)]
        linarith
      have h3 : (k : ℚ) / 800 + 1 / 800 = ((k : ℚ) + 1) / 800 := by ring
      rw [h3]
      exact not_lt.mpr h2

/-- Claim C5 counterexample: after 1600 consecutive hold ticks starting
from rotation 0, the rotation is exactly 2π (2 in units of π) — the wrap
condition is strict (> 2π), so 2π itself is not wrapped — and 2π does not
lie in the claimed half-open interval [0, 2π). -/
theorem claim5_counterexample :
    rotRun (List.replicate 1600 true) = 2 ∧
    ¬(0 ≤ rotRun (List.replicate 1600 true) ∧
      rotRun (List.replicate 1600 true) < 2) := by
  have h : rotRun (List.replicate 1600 true) = 2 := by
    rw [rotRun_replicate 1600 le_rfl]; norm_num
  exact ⟨h, fun hc => absurd (h ▸ hc.2) (lt_irrefl 2)⟩

lemma rotStep_range (r : ℚ) (h0 : 0 ≤ r) (h2 : r ≤ 2) :
    0 ≤ rotStep r ∧ rotStep r ≤ 2 := by
  simp only [rotStep]
  split
  next hgt => constructor <;> [linarith; linarith]
  next hgt =>
    push_neg at hgt
    constructor <;> [linarith; linarith]

lemma rotRun_aux (bs : List Bool) :
    ∀ r : ℚ, 0 ≤ r → r ≤ 2 →
      0 ≤ bs.foldl (fun r b => if b then rotStep r else r) r ∧
      bs.foldl (fun r b => if b then rotStep r else r) r ≤ 2 := by
  induction bs with
  | nil => exact fun r h0 h2 => ⟨h0, h2⟩
  | cons b rest ih =>
    intro r h0 h2
    simp only [List.foldl_cons]
    cases b with
    | false => simpa using ih r h0 h2
    | true =>
      obtain ⟨s0, s2⟩ := rotStep_range r h0 h2
      simpa using ih (rotStep r) s0 s2

/-- Claim C5 (amended): rotationPhase applies rotStep exactly on hold
ticks, and for every hold/no-hold tick sequence starting from
pendulumRotation = 0 the rotation stays in the closed interval [0, 2π]
(in units of π: [0, 2]); the right endpoint 2π is attained, so the
half-open interval [0, 2π) of the original claim is not an invariant. -/
theorem claim5_rotation_range :
    (∀ g : Game, (rotationPhase g).pendulumRotation =
        if g.hold then rotStep g.pendulumRotation else g.pendulumRotation) ∧
    ∀ bs : List Bool, 0 ≤ rotRun bs ∧ rotRun bs ≤ 2 := by
  constructor
  · intro g
    unfold rotationPhase
    split <;> simp_all
  · intro bs
    exact rotRun_aux bs 0 le_rfl (by norm_num)

/-! Claim C2: the collision predicate. -/

/-- Claim C2: for a coin (and likewise an enemy), the hit test succeeds
exactly when the squared Euclidean distance between the bob position
(pendulumX·cos rotation, pendulumX·sin rotation) and the entity position
(r·cos θ, r·sin θ) — taken in the unscaled polar plane, with no vertical
squash factor — is strictly below (pendulumR + entity radius)^2; the coin
loop records the hit flag accordingly; and when the two positions
coincide and the entity radius is positive (the bob radius pendulumR = 10
is a positive constant), a hit is always registered. -/
theorem claim2_collision_iff :
    (∀ (T : Trig) (g : Game) (c : Coin),
        collideAt T (bobOf T g) c.pos c.r = true ↔
        (g.pendulumX * T.cospi g.pendulumRotation -
            c.pos.r * T.cospi c.pos.theta) ^ 2 +
          (g.pendulumX * T.sinpi g.pendulumRotation -
            c.pos.r * T.sinpi c.pos.theta) ^ 2 <
          (pendulumR + c.r) ^ 2) ∧
    (∀ (T : Trig) (g : Game) (e : Enemy),
        collideAt T (bobOf T g) e.pos e.r = true ↔
        (g.pendulumX * T.cospi g.pendulumRotation -
            e.pos.r * T.cospi e.pos.theta) ^ 2 +
          (g.pendulumX * T.sinpi g.pendulumRotation -
            e.pos.r * T.sinpi e.pos.theta) ^ 2 <
          (pendulumR + e.r) ^ 2) ∧
    (∀ (T : Trig) (bob : ℚ × ℚ) (c : Coin),
        (coinUpd T bob c).hit = (collideAt T bob c.pos c.r || c.hit)) ∧
    (∀ (T : Trig) (bob : ℚ × ℚ) (p : PolarCoordinates) (radius : ℚ),
        bob.1 = p.r * T.cospi p.theta → bob.2 = p.r * T.sinpi p.theta →
        0 < radius → collideAt T bob p radius = true) := by
  refine ⟨?_, ?_, ?_, ?_⟩
  · intro T g c
    simp [collideAt, bobOf]
  · intro T g e
    simp [collideAt, bobOf]
  · intro T bob c
    simp only [coinUpd]
    split <;> simp_all
  · intro T bob p radius h1 h2 hr
    have hpos : (0 : ℚ) < pendulumR + radius := by
      unfold pendulumR; linarith
    simp only [collideAt, h1, h2, sub_self, decide_eq_true_eq]
    have : ((0 : ℚ)) ^ 2 + (0 : ℚ) ^ 2 = 0 := by norm_num
    rw [this]
    exact pow_pos hpos 2

/-- A concrete coin used in witnesses: radius 10, sitting at the polar
origin, not yet hit. -/
def cW : Coin :=
  { ticks := 0, pos := { r := 0, theta := 0 }, mover := { delay := 0, delta := 1 },
    r := 10, hit := false }

theorem claim2_collision_iff_witness :
    collideAt T0 (0, 0) { r := 0, theta := 0 } 10 = true :=
  claim2_collision_iff.2.2.2 T0 (0, 0) { r := 0, theta := 0 } 10
    (by simp [T0]) (by simp [T0]) (by norm_num)

/-! Claim C3: the spawn group. -/

/-- Claim C3: a spawn event emits exactly 6 coins, the i-th with mover
delay (i+1)·20 and radius 10 for i < 3 and 7 otherwise, plus one enemy
with delay 0 and radius 10, all sharing the spawn point and the mover
delta. -/
theorem claim3_spawn_group (pos : PolarCoordinates) (delta : ℚ) :
    (spawnCoins pos delta).length = 6 ∧
    (∀ (i : ℕ) (h : i < (spawnCoins pos delta).length),
      ((spawnCoins pos delta).get ⟨i, h⟩).mover.delay = ((i : ℤ) + 1) * 20 ∧
      ((spawnCoins pos delta).get ⟨i, h⟩).r = (if i < 3 then (10 : ℚ) else 7) ∧
      ((spawnCoins pos delta).get ⟨i, h⟩).pos = pos ∧
      ((spawnCoins pos delta).get ⟨i, h⟩).mover.delta = delta) ∧
    (spawnEnemy pos delta).mover.delay = 0 ∧
    (spawnEnemy pos delta).r = 10 ∧
    (spawnEnemy pos delta).pos = pos ∧
    (spawnEnemy pos delta).mover.delta = delta := by
  refine ⟨rfl, ?_, rfl, rfl, rfl, rfl⟩
  intro i h
  have h6 : i < 6 := h
  interval_cases i <;> exact ⟨rfl, rfl, rfl, rfl⟩

/-- A concrete spawn point for witnesses. -/
def pW : PolarCoordinates := { r := 100, theta := 0 }

theorem claim3_spawn_group_witness :
    (spawnCoins pW 1).length = 6 ∧
    ((spawnCoins pW 1).get ⟨0, by decide⟩).mover.delay =
      ((0 : ℤ) + 1) * 20 ∧
    ((spawnCoins pW 1).get ⟨0, by decide⟩).r =
      (if 0 < 3 then (10 : ℚ) else 7) ∧
    ((spawnCoins pW 1).get ⟨0, by decide⟩).pos = pW ∧
    ((spawnCoins pW 1).get ⟨0, by decide⟩).mover.delta = 1 := by
  have h := claim3_spawn_group pW 1
  exact ⟨h.1, h.2.1 0 (by decide)⟩

/-! Claim C4: consequences of a coin hit. -/

/-- Claim C4: when a coin collides with the bob this tick, its hit flag
is set, a CoinHitEffect carrying gain coinGain r is created at the coin's
polar position (and ends up appended to the effect list), the score grows
by exactly the sum of the gains of the colliding coins, and the tier
function gives 1000 for radius 10 and 300 for radius 7. -/
theorem claim4_coin_hit :
    (∀ (T : Trig) (bob : ℚ × ℚ) (c : Coin),
        collideAt T bob c.pos c.r = true →
        (coinUpd T bob c).hit = true ∧
        coinEffect T bob c = some { ticks := 0, pos := { r := c.pos.r, theta := c.pos.theta }, gain := coinGain c.r } ∧
        coinScore T bob c = coinGain c.r) ∧
    (∀ (T : Trig) (g : Game) (c : Coin), c ∈ g.coins →
        collideAt T (bobOf T g) c.pos c.r = true →
        ({ ticks := 0, pos := { r := c.pos.r, theta := c.pos.theta }, gain := coinGain c.r } : CoinHitEffect) ∈
          (coinPhase T g).coinHitEffects) ∧
    (∀ (T : Trig) (g : Game),
        (coinPhase T g).score =
          g.score + (g.coins.map (coinScore T (bobOf T g))).sum) ∧
    coinGain 10 = 1000 ∧ coinGain 7 = 300 := by
  have key : ∀ (T : Trig) (bob : ℚ × ℚ) (c : Coin),
      collideAt T bob c.pos c.r = true →
      (coinUpd T bob c).hit = true ∧
      coinEffect T bob c = some { ticks := 0, pos := { r := c.pos.r, theta := c.pos.theta }, gain := coinGain c.r } ∧
      coinScore T bob c = coinGain c.r := by
    intro T bob c h
    refine ⟨?_, ?_, ?_⟩
    · simp only [coinUpd]
      split <;> simp_all
    · simp [coinEffect, h]
    · simp [coinScore, h]
  refine ⟨key, ?_, fun T g => rfl, by norm_num [coinGain], by norm_num [coinGain]⟩
  intro T g c hc h
  have he := (key T (bobOf T g) c h).2.1
  simp only [coinPhase, List.mem_append]
  exact Or.inr (List.mem_filterMap.mpr ⟨c, hc, he⟩)

/-- A Playing-mode state whose single coin sits exactly at the bob
position (both at the polar origin / the field centre). -/
def gW4 : Game :=
  { mkGame 1 with mode := GameMode.Playing, coins := [cW] }

theorem claim4_coin_hit_witness :
    (coinUpd T0 (bobOf T0 gW4) cW).hit = true ∧
    coinEffect T0 (bobOf T0 gW4) cW = some { ticks := 0, pos := { r := cW.pos.r, theta := cW.pos.theta }, gain := coinGain cW.r } ∧
    coinScore T0 (bobOf T0 gW4) cW = coinGain cW.r :=
  claim4_coin_hit.1 T0 (bobOf T0 gW4) cW
    (by norm_num [collideAt, bobOf, gW4, cW, T0, mkGame, pendulumR])

/-! Claim C6: per-tick entity lifecycle stepping. -/

lemma coinUpd_ticks_pos (T : Trig) (bob : ℚ × ℚ) (c : Coin) :
    (coinUpd T bob c).ticks = c.ticks + 1 ∧
    (coinUpd T bob c).pos = c.mover.move T (c.ticks + 1) c.pos := by
  simp only [coinUpd]
  split <;> exact ⟨rfl, rfl⟩

lemma enemyUpd_ticks_pos (T : Trig) (e : Enemy) :
    (enemyUpd T e).ticks = e.ticks + 1 ∧
    (enemyUpd T e).pos = e.mover.move T (e.ticks + 1) e.pos :=
  ⟨rfl, rfl⟩

/-- The enemy loop steps every enemy when none of them collides. -/
lemma enemyLoop_clean (T : Trig) (bob : ℚ × ℚ) (l : List Enemy)
    (h : ∀ e ∈ l, collideAt T bob e.pos e.r = false) :
    enemyLoop T bob l = (l.map (enemyUpd T), false) := by
  induction l with
  | nil => rfl
  | cons e rest ih =>
    have he := h e (List.mem_cons_self e rest)
    have hrest := ih fun x hx => h x (List.mem_cons_of_mem e hx)
    simp [enemyLoop, he, hrest]

/-- The enemy loop stops at the first colliding enemy: enemies strictly
before it are stepped, the colliding one and all later ones are returned
untouched, and game over is reported. -/
lemma enemyLoop_split (T : Trig) (bob : ℚ × ℚ) (pre : List Enemy)
    (e : Enemy) (post : List Enemy)
    (hpre : ∀ x ∈ pre, collideAt T bob x.pos x.r = false)
    (he : collideAt T bob e.pos e.r = true) :
    enemyLoop T bob (pre ++ e :: post) = (pre.map (enemyUpd T) ++ e :: post, true) := by
  induction pre with
  | nil => simp [enemyLoop, he]
  | cons x rest ih =>
    have hx := hpre x (List.mem_cons_self x rest)
    have hrest := ih fun y hy => hpre y (List.mem_cons_of_mem x hy)
    simp [enemyLoop, hx, hrest]

/-- Claim C6 (amended): after the physics phase of a Playing tick, every
live coin has its age advanced by exactly 1 and its Mover applied (at the
incremented age), and likewise every live coin-hit effect is aged by 1;
enemies are aged and moved in order only up to (and excluding) the first
enemy that collides with the bob — on the tick in which an enemy
collision ends the game, the colliding enemy and all enemies after it in
the list keep their age and position, because the loop breaks out; when
no enemy collides, every enemy is aged and moved. -/
theorem claim6_lifecycle :
    (∀ (T : Trig) (bob : ℚ × ℚ) (c : Coin),
        (coinUpd T bob c).ticks = c.ticks + 1 ∧
        (coinUpd T bob c).pos = c.mover.move T (c.ticks + 1) c.pos) ∧
    (∀ (T : Trig) (g : Game),
        (coinPhase T g).coins = g.coins.map (coinUpd T (bobOf T g))) ∧
    (∀ g : Game,
        (effectPhase g).coinHitEffects.map CoinHitEffect.ticks =
          g.coinHitEffects.map fun e => e.ticks + 1) ∧
    (∀ (T : Trig) (e : Enemy),
        (enemyUpd T e).ticks = e.ticks + 1 ∧
        (enemyUpd T e).pos = e.mover.move T (e.ticks + 1) e.pos) ∧
    (∀ (T : Trig) (g : Game),
        (∀ e ∈ g.enemies, collideAt T (bobOf T g) e.pos e.r = false) →
        (enemyPhase T g).enemies = g.enemies.map (enemyUpd T) ∧
        (enemyPhase T g).mode = g.mode) ∧
    (∀ (T : Trig) (g : Game) (pre : List Enemy) (e : Enemy) (post : List Enemy),
        g.enemies = pre ++ e :: post →
        (∀ x ∈ pre, collideAt T (bobOf T g) x.pos x.r = false) →
        collideAt T (bobOf T g) e.pos e.r = true →
        (enemyPhase T g).enemies = pre.map (enemyUpd T) ++ e :: post ∧
        (enemyPhase T g).mode = GameMode.GameOver) := by
  refine ⟨coinUpd_ticks_pos, fun T g => rfl, ?_, enemyUpd_ticks_pos, ?_, ?_⟩
  · intro g
    simp [effectPhase]
  · intro T g h
    have hl := enemyLoop_clean T (bobOf T g) g.enemies h
    constructor <;> simp [enemyPhase, hl]
  · intro T g pre e post hsplit hpre he
    have hl : enemyLoop T (bobOf T g) g.enemies =
        (pre.map (enemyUpd T) ++ e :: post, true) := by
      rw [hsplit]
      exact enemyLoop_split T (bobOf T g) pre e post hpre he
    constructor <;> simp [enemyPhase, hl]

/-- A concrete enemy of age 5 sitting at the polar origin. -/
def eC : Enemy :=
  { ticks := 5, pos := { r := 0, theta := 0 }, mover := { delay := 0, delta := 1 },
    r := 10 }

/-- A Playing-mode state whose single enemy coincides with the bob. -/
def gC6 : Game :=
  { mkGame 1 with mode := GameMode.Playing, enemies := [eC] }

/-- Claim C6 counterexample: on a Playing tick in which the (only) enemy
collides with the bob and the game ends, that enemy's age counter is NOT
advanced (it stays 5 while the claim requires 6) and its Mover is not
applied, because the collision branch breaks out of the enemy loop before
the e.ticks++ / e.mover.move lines. -/
theorem claim6_counterexample :
    (enemyPhase T0 gC6).mode = GameMode.GameOver ∧
    (enemyPhase T0 gC6).enemies.map Enemy.ticks = [5] ∧
    gC6.enemies.map (fun e => e.ticks + 1) = [6] ∧
    ¬((enemyPhase T0 gC6).enemies.map Enemy.ticks =
       gC6.enemies.map fun e => e.ticks + 1) := by
  have hcol : collideAt T0 (bobOf T0 gC6) eC.pos eC.r = true := by
    norm_num [collideAt, bobOf, T0, gC6, eC, mkGame, pendulumR]
  have hloop : enemyLoop T0 (bobOf T0 gC6) gC6.enemies = ([eC], true) := by
    show enemyLoop T0 (bobOf T0 gC6) [eC] = ([eC], true)
    simp [enemyLoop, hcol]
  have h1 : (enemyPhase T0 gC6).mode = GameMode.GameOver := by
    simp [enemyPhase, hloop]
  have h2 : (enemyPhase T0 gC6).enemies.map Enemy.ticks = [5] := by
    simp [enemyPhase, hloop, eC]
  have h3 : gC6.enemies.map (fun e => e.ticks + 1) = [6] := rfl
  refine ⟨h1, h2, h3, ?_⟩
  rw [h2, h3]
  decide

/-- A Playing-mode state with one enemy far from the bob (no collision),
used to witness the no-collision conjunct of the amended claim 6. -/
def gW6 : Game :=
  { mkGame 1 with mode := GameMode.Playing, pendulumX := 220, enemies := [eC] }

theorem claim6_lifecycle_witness :
    (enemyPhase T0 gW6).enemies = gW6.enemies.map (enemyUpd T0) ∧
    (enemyPhase T0 gW6).mode = gW6.mode := by
  have h : ∀ e ∈ gW6.enemies, collideAt T0 (bobOf T0 gW6) e.pos e.r = false := by
    intro e hmem
    have hval : e = eC := by
      have : gW6.enemies = [eC] := rfl
      rw [this] at hmem
      simpa using hmem
    subst hval
    norm_num [collideAt, bobOf, T0, gW6, eC, mkGame, pendulumR]
  exact claim6_lifecycle.2.2.2.2.1 T0 gW6 h

/-! Claim C7: end-of-tick filtering. -/

/-- Claim C7: the end-of-tick filter retains a coin exactly when its
screen coordinates lie in the open box (-100, screenWidth+100) ×
(-100, screenHeight+100) and its hit flag is unset, an enemy exactly when
its screen coordinates lie in the same box, and an effect exactly when
its age is below 60; consequently every entity surviving a Playing tick
satisfies its retention predicate, and in particular a coin or enemy
whose screen x exceeds screenWidth+100 is not retained. -/
theorem claim7_filter :
    (∀ (T : Trig) (g : Game),
        (filterPhase T g).coins = g.coins.filter (coinKeep T) ∧
        (filterPhase T g).enemies = g.enemies.filter (enemyKeep T) ∧
        (filterPhase T g).coinHitEffects =
          g.coinHitEffects.filter fun e => decide (e.ticks < 60)) ∧
    (∀ (T : Trig) (c : Coin),
        coinKeep T c = true ↔
        ((toScreen T c.pos).1 > -100 ∧
         (toScreen T c.pos).1 < screenWidth + 100 ∧
         (toScreen T c.pos).2 > -100 ∧
         (toScreen T c.pos).2 < screenHeight + 100 ∧ c.hit = false)) ∧
    (∀ (T : Trig) (e : Enemy),
        enemyKeep T e = true ↔
        ((toScreen T e.pos).1 > -100 ∧
         (toScreen T e.pos).1 < screenWidth + 100 ∧
         (toScreen T e.pos).2 > -100 ∧
         (toScreen T e.pos).2 < screenHeight + 100)) ∧
    (∀ (T : Trig) (R : RandModel) (fuel : ℕ) (inp : Input) (g g' : Game),
        playingBody T R fuel inp g = some g' →
        (∀ c ∈ g'.coins, coinKeep T c = true) ∧
        (∀ e ∈ g'.enemies, enemyKeep T e = true) ∧
        (∀ e ∈ g'.coinHitEffects, e.ticks < 60)) ∧
    (∀ (T : Trig) (c : Coin),
        (toScreen T c.pos).1 > screenWidth + 100 → coinKeep T c = false) ∧
    (∀ (T : Trig) (e : Enemy),
        (toScreen T e.pos).1 > screenWidth + 100 → enemyKeep T e = false) := by
  refine ⟨fun T g => ⟨rfl, rfl, rfl⟩, ?_, ?_, ?_, ?_, ?_⟩
  · intro T c
    simp [coinKeep, and_assoc]
  · intro T e
    simp [enemyKeep, and_assoc]
  · intro T R fuel inp g g' h
    rw [playingBody, Option.map_eq_some'] at h
    obtain ⟨ga, hsp, hf⟩ := h
    subst hf
    refine ⟨?_, ?_, ?_⟩ <;> intro x hx
    · exact List.of_mem_filter hx
    · exact List.of_mem_filter hx
    · simp only [filterPhase] at hx
      have h60 := List.of_mem_filter hx
      exact of_decide_eq_true h60
  · intro T c hgt
    have hlt : ¬((toScreen T c.pos).1 < screenWidth + 100) :=
      not_lt.mpr (le_of_lt hgt)
    simp [coinKeep, hlt]
  · intro T e hgt
    have hlt : ¬((toScreen T e.pos).1 < screenWidth + 100) :=
      not_lt.mpr (le_of_lt hgt)
    simp [enemyKeep, hlt]

/-- A coin far off the right edge of the screen (screen x = 1120). -/
def cFar : Coin :=
  { ticks := 0, pos := { r := 800, theta := 0 }, mover := { delay := 0, delta := 1 },
    r := 10, hit := false }

theorem claim7_filter_witness : coinKeep T0 cFar = false :=
  claim7_filter.2.2.2.2.1 T0 cFar
    (by norm_num [toScreen, T0, cFar, screenWidth, circleX])

/-! Claim C9: determinism given a fixed random seed. -/

/-- Reinitialisation ignores the wall clock when a fixed seed override is
configured. -/
lemma initGame_now_irrel (R : RandModel) (n1 n2 : ℤ) (g : Game)
    (h : g.fixedRandomSeed ≠ 0) : initGame R n1 g = initGame R n2 g := by
  simp only [initGame]
  simp [h]

/-- Game.Update never changes the configured fixed seed. -/
lemma update_fixedSeed (T : Trig) (R : RandModel) (fuel : ℕ) (now : ℤ)
    (inp : Input) (g g' : Game) (h : update T R fuel now inp g = some g') :
    g'.fixedRandomSeed = g.fixedRandomSeed := by
  simp only [update] at h
  split at h
  · injection h with h
    subst h
    split <;> rfl
  · rw [playingBody, Option.map_eq_some'] at h
    obtain ⟨ga, hsp, hf⟩ := h
    subst hf
    have h1 := (spawnPhase_same T R fuel _ ga hsp).1
    simp only [filterPhase_fixedRandomSeed, enemyPhase_fixedRandomSeed,
      effectPhase_fixedRandomSeed, coinPhase_fixedRandomSeed]
    rw [h1]
    simp
  · injection h with h
    subst h
    split <;> rfl

/-- With a fixed seed configured, the wall-clock argument does not
influence a tick. -/
lemma update_now_irrel (T : Trig) (R : RandModel) (fuel : ℕ) (n1 n2 : ℤ)
    (inp : Input) (g : Game) (hseed : g.fixedRandomSeed ≠ 0) :
    update T R fuel n1 inp g = update T R fuel n2 inp g := by
  have hseed2 :
      ({ g with ticksFromModeStart := g.ticksFromModeStart + 1 } : Game).fixedRandomSeed ≠ 0 :=
    hseed
  simp only [update]
  split
  · rfl
  · rfl
  · rw [initGame_now_irrel R n1 n2 _ hseed2]

/-- With a fixed seed configured, whole trajectories are independent of
the wall clock. -/
lemma trajectory_now_irrel (T : Trig) (R : RandModel) (fuel : ℕ)
    (n1 n2 : ℤ) :
    ∀ (inputs : List Input) (g : Game), g.fixedRandomSeed ≠ 0 →
      trajectory T R fuel n1 inputs g = trajectory T R fuel n2 inputs g := by
  intro inputs
  induction inputs with
  | nil => intro g _; rfl
  | cons i is ih =>
    intro g hseed
    simp only [trajectory]
    rw [← update_now_irrel T R fuel n1 n2 i g hseed]
    cases hu : update T R fuel n1 i g with
    | none => rfl
    | some g2 =>
      have hpres := update_fixedSeed T R fuel n1 i g g2 hu
      show some g2 :: trajectory T R fuel n1 is g2 =
        some g2 :: trajectory T R fuel n2 is g2
      rw [ih g2 (by rw [hpres]; exact hseed)]

/-- Claim C9: two runs initialized with the same non-zero fixed random
seed and fed the same input sequence produce identical state trajectories
over any number of ticks — in particular identical spawn events, spawn
sides, spawn positions and entity parameters — independently of the wall
clock time at which each run (re)initialises. -/
theorem claim9_determinism (T : Trig) (R : RandModel) (fuel : ℕ)
    (now1 now2 : ℤ) (inputs : List Input) (seed1 seed2 : ℤ)
    (hne : seed1 ≠ 0) (heq : seed1 = seed2) :
    trajectory T R fuel now1 inputs (initGame R now1 (mkGame seed1)) =
    trajectory T R fuel now2 inputs (initGame R now2 (mkGame seed2)) := by
  subst heq
  have hfs : (mkGame seed1).fixedRandomSeed ≠ 0 := hne
  rw [← initGame_now_irrel R now1 now2 (mkGame seed1) hfs]
  exact trajectory_now_irrel T R fuel now1 now2 inputs _ hne

theorem claim9_determinism_witness :
    trajectory T0 R0 1 0 [inp0] (initGame R0 0 (mkGame 3)) =
    trajectory T0 R0 1 5 [inp0] (initGame R0 5 (mkGame 3)) :=
  claim9_determinism T0 R0 1 0 5 [inp0] 3 3 (by decide) rfl

/-! Claim C10: score monotonicity. -/

lemma coinGain_pos (r : ℚ) : 0 < coinGain r := by
  unfold coinGain
  split
  · norm_num
  · split <;> norm_num

lemma coinScores_sum_nonneg (T : Trig) (bob : ℚ × ℚ) (l : List Coin) :
    0 ≤ (l.map (coinScore T bob)).sum := by
  apply List.sum_nonneg
  intro x hx
  obtain ⟨c, _, rfl⟩ := List.mem_map.mp hx
  unfold coinScore
  split
  · exact le_of_lt (coinGain_pos c.r)
  · exact le_refl 0

/-- Claim C10: across ticks of a single play the score never decreases —
a tick either leaves the score unchanged or adds coin gains, and the only
decreasing operation is the full reinitialisation, which sets the score
to exactly 0 while clearing all entity collections and resetting the
pendulum state; a coin hit always adds a strictly positive gain, and the
coin loop adds exactly the sum of the colliding coins' gains. -/
theorem claim10_score_monotone :
    (∀ (T : Trig) (R : RandModel) (fuel : ℕ) (now : ℤ) (inp : Input)
        (g g' : Game), update T R fuel now inp g = some g' →
        g.score ≤ g'.score ∨
        g' = initGame R now { g with ticksFromModeStart := g.ticksFromModeStart + 1 }) ∧
    (∀ (R : RandModel) (now : ℤ) (g : Game),
        (initGame R now g).score = 0 ∧ (initGame R now g).coins = [] ∧
        (initGame R now g).coinHitEffects = [] ∧
        (initGame R now g).enemies = [] ∧
        (initGame R now g).pendulumX = 0 ∧
        (initGame R now g).pendulumVx = 0 ∧
        (initGame R now g).pendulumRotation = 0) ∧
    (∀ r : ℚ, 0 < coinGain r) ∧
    (∀ (T : Trig) (g : Game),
        (coinPhase T g).score =
          g.score + (g.coins.map (coinScore T (bobOf T g))).sum) := by
  refine ⟨?_, fun R now g => ⟨rfl, rfl, rfl, rfl, rfl, rfl, rfl⟩,
    coinGain_pos, fun T g => rfl⟩
  intro T R fuel now inp g g' h
  simp only [update] at h
  split at h
  · injection h with h
    subst h
    left
    split <;> exact le_rfl
  · left
    rw [playingBody, Option.map_eq_some'] at h
    obtain ⟨ga, hsp, hf⟩ := h
    subst hf
    have hscore : ga.score =
        (resetPhase (physicsPhase (rotationPhase (holdPhase inp
          { g with ticksFromModeStart := g.ticksFromModeStart + 1 })))).score :=
      (spawnPhase_same T R fuel _ ga hsp).2.2.2.1
    have hbase : ga.score = g.score := by
      rw [hscore]
      simp
    have hsum := coinScores_sum_nonneg T (bobOf T ga) ga.coins
    calc g.score = ga.score := hbase.symm
      _ ≤ ga.score + (ga.coins.map (coinScore T (bobOf T ga))).sum := by
          linarith
      _ = (filterPhase T (enemyPhase T (effectPhase (coinPhase T ga)))).score := by
          simp only [filterPhase_score, enemyPhase_score, effectPhase_score]
          rfl
  · injection h with h
    subst h
    split
    · right; rfl
    · left; exact le_rfl

theorem claim10_score_monotone_witness :
    gW1.score ≤ ((update T0 R0 1 0 inp0 gW1).getD gW1).score ∨
    ((update T0 R0 1 0 inp0 gW1).getD gW1) =
      initGame R0 0 { gW1 with ticksFromModeStart := gW1.ticksFromModeStart + 1 } :=
  claim10_score_monotone.1 T0 R0 1 0 inp0 gW1
    ((update T0 R0 1 0 inp0 gW1).getD gW1) rfl

end Foucault

/-! Claim C8: the screen ↔ polar round trip over the real numbers.

The Go fromScreen/toScreen pair uses math.Sqrt, math.Atan2, math.Cos and
math.Sin on float64 values; here the pair is embedded over ℝ with the
genuine real functions (math.Atan2 y x is Complex.arg ⟨x, y⟩, which has
the same range (-π, π] and the same value 0 at the origin), and the
round trip is proved exact — the floating-point tolerance in the claim is
subsumed by exactness of the idealized real-number semantics. -/

namespace Foucault

/-- PolarCoordinates over ℝ (theta in radians here, not units of π). -/
structure PolarR where
  r : ℝ
  theta : ℝ

/-- math.Atan2 over ℝ: atan2R y x is the argument of the complex number
x + y·i, in (-π, π], with atan2R 0 0 = 0. -/
noncomputable def atan2R (y x : ℝ) : ℝ := Complex.arg ⟨x, y⟩

/-- PolarCoordinates.toScreen over ℝ. -/
noncomputable def toScreenR (p : PolarR) : ℝ × ℝ :=
  (p.r * Real.cos p.theta + (circleX : ℝ),
   p.r * Real.sin p.theta * (circleVerticalScale : ℝ) + (circleY : ℝ))

/-- PolarCoordinates.fromScreen over ℝ. -/
noncomputable def fromScreenR (x y : ℝ) : PolarR :=
  { r := Real.sqrt ((x - (circleX : ℝ)) * (x - (circleX : ℝ)) +
      ((y - (circleY : ℝ)) / (circleVerticalScale : ℝ)) *
      ((y - (circleY : ℝ)) / (circleVerticalScale : ℝ))),
    theta := atan2R ((y - (circleY : ℝ)) / (circleVerticalScale : ℝ))
      (x - (circleX : ℝ)) }

/-- Claim C8: for every screen point (x, y), converting to polar via
fromScreen and back via toScreen reproduces (x, y) exactly (over ℝ; in
particular for every y within the visible field). -/
theorem claim8_roundtrip (x y : ℝ) : toScreenR (fromScreenR x y) = (x, y) := by
  have hscale : (circleVerticalScale : ℝ) ≠ 0 := by
    norm_num [circleVerticalScale]
  have habs : Real.sqrt ((x - (circleX : ℝ)) * (x - (circleX : ℝ)) +
      ((y - (circleY : ℝ)) / (circleVerticalScale : ℝ)) *
      ((y - (circleY : ℝ)) / (circleVerticalScale : ℝ))) =
      Complex.abs ⟨x - (circleX : ℝ),
        (y - (circleY : ℝ)) / (circleVerticalScale : ℝ)⟩ := by
    rw [Complex.abs_apply, Complex.normSq_mk]
  simp only [toScreenR, fromScreenR, atan2R, Prod.mk.injEq]
  rw [habs]
  constructor
  · have h := Complex.abs_mul_cos_arg
      ⟨x - (circleX : ℝ), (y - (circleY : ℝ)) / (circleVerticalScale : ℝ)⟩
    simp only at h
    rw [h]
    ring
  · have h := Complex.abs_mul_sin_arg
      ⟨x - (circleX : ℝ), (y - (circleY : ℝ)) / (circleVerticalScale : ℝ)⟩
    simp only at h
    rw [h, div_mul_cancel₀ _ hscale]
    ring

end Foucault
